import Mathlib

/-!
Shallow embedding of the frame-windowing and retention logic of
django-stream-analysis (stream_analysis/models.py, stream_analysis/utils.py).

Timestamps are modelled as integers (seconds); Django datetimes are totally
ordered and support subtraction of a duration, which integer seconds capture.
A `none` value of an `Option Int` corresponds to Python `None`.
-/

namespace StreamAnalysis

/-- One row of a concrete `BaseTimeFrame` table (models.py lines 125-163):
`start_time` (indexed datetime), `calculated` (default False),
`missing_data` (default False), `analysis_time` and `cleanup_time`
(nullable floats; here nullable integer timestamps). -/
structure Frame where
  start_time : Int
  calculated : Bool
  missing_data : Bool
  analysis_time : Option Int
  cleanup_time : Option Int
deriving DecidableEq, Repr

/-- `BaseTimeFrame.__init__` via `frame_class(start_time=frame_start)`:
all other fields take their declared defaults. -/
def mkFrame (s : Int) : Frame :=
  { start_time := s, calculated := false, missing_data := false
    analysis_time := none, cleanup_time := none }

/-- `BaseTimeFrame.mark_started` (models.py lines 223-229):
`self.analysis_time = time.time(); self.save()`.  The current wall-clock
timestamp is the parameter `now`. -/
def Frame.mark_started (f : Frame) (now : Int) : Frame :=
  { f with analysis_time := some now }

/-- `BaseTimeFrame.mark_cleanup_started` (models.py lines 231-237):
`self.cleanup_time = time.time(); self.save()`. -/
def Frame.mark_cleanup_started (f : Frame) (now : Int) : Frame :=
  { f with cleanup_time := some now }

/-- Django `aggregate(Min(field))` over a list of values: `None` on an empty
set, otherwise the least value. -/
def aggMin : List Int → Option Int
  | [] => none
  | x :: xs =>
    match aggMin xs with
    | none => some x
    | some m => some (min x m)

/-- Django `aggregate(Max(field))` over a list of values. -/
def aggMax : List Int → Option Int
  | [] => none
  | x :: xs =>
    match aggMax xs with
    | none => some x
    | some m => some (max x m)

/-- `BaseTimeFrame.get_stream_memory_cutoff` (models.py lines 197-221):
the `Min` aggregate of `start_time` over rows with `calculated=False`;
if that is `None`, the `Max` aggregate over rows with `calculated=True`;
if that is also `None`, `None`. -/
def get_stream_memory_cutoff (frames : List Frame) : Option Int :=
  match aggMin ((frames.filter (fun f => f.calculated = false)).map Frame.start_time) with
  | some t => some t
  | none =>
    match aggMax ((frames.filter (fun f => f.calculated = true)).map Frame.start_time) with
    | some t => some t
    | none => none

/-- `TimedIntervalMixin.get_latest_end_time` (models.py lines 77-87): the
`Max` aggregate of `start_time` plus `DURATION`, or `None` when there are no
rows.  (The source tests the aggregate with Python truthiness, but the value
is a datetime, which is always truthy, so truthiness coincides with a
not-`None` test.) -/
def get_latest_end_time (frames : List Frame) (duration : Int) : Option Int :=
  match aggMax (frames.map Frame.start_time) with
  | some m => some (m + duration)
  | none => none

/-- `TimedIntervalMixin.get_earliest_start_time` (models.py lines 89-96): the
`Min` aggregate of `start_time`; `None` when there are no rows.  Note that an
aggregate query returns `None` rather than raising `ObjectDoesNotExist`. -/
def get_earliest_start_time (frames : List Frame) : Option Int :=
  aggMin (frames.map Frame.start_time)

/-- An RQ job as seen by the duplicate-run guard of `create_frames`:
its id and its call string (`get_call_string()`, the function name applied
to its arguments, so two `create_frames` runs for the same task key have
equal call strings). -/
structure Job where
  id : Nat
  callString : String
deriving DecidableEq, Repr

/-- The state of a Stream Adapter (`AbstractStream` in streams.py): the three
query methods used by the generators.  `delete_before` and the stream items
themselves stay abstract; only these aggregates are consulted. -/
structure AbstractStream where
  is_stream_empty : Bool
  get_earliest_stream_time : Option Int
  get_latest_stream_time : Option Int
deriving DecidableEq, Repr

/-- The `while frame_start < latest_allowable_start` loop of `create_frames`
(utils.py lines 238-241): starting at `start`, emit a frame start and step by
`duration` while below `ceiling`.  The source loop terminates because every
frame type declares a positive duration; the guard `0 < duration` makes that
termination argument explicit. -/
def frameStarts (start ceiling duration : Int) : List Int :=
  if h : 0 < duration ∧ start < ceiling then
    start :: frameStarts (start + duration) ceiling duration
  else []
termination_by (ceiling - start).toNat
decreasing_by
  have h1 := h.1
  have h2 := h.2
  omega

/-- `create_frames`, after the duplicate-run guard (utils.py lines 196-243).
Returns the list of newly created frames, in creation order; these are
exactly the rows saved and the jobs enqueued by `_insert_and_queue`. -/
def create_frames_body (duration : Int) (frames : List Frame)
    (stream : AbstractStream) : List Frame :=
  if stream.is_stream_empty then []
  else
    match get_latest_end_time frames duration with
    | some latest_analyzed =>
      match stream.get_latest_stream_time with
      | none => []
      | some latest =>
        (frameStarts latest_analyzed (latest - duration) duration).map mkFrame
    | none =>
      -- no frames yet: anchor at the earliest stream time with seconds zeroed
      match stream.get_earliest_stream_time with
      | none => []
      | some e =>
        let latest_analyzed := e - e % 60
        match stream.get_latest_stream_time with
        | none => []
        | some latest =>
          (frameStarts latest_analyzed (latest - duration) duration).map mkFrame

/-- `create_frames` (utils.py lines 178-243).  `me` is the current job,
`queue` the list returned by `django_rq.get_queue().get_jobs()` (the in-flight
generation jobs the guard can observe).  If another job with the same call
string is found, the run returns at once with no frames created. -/
def create_frames (me : Job) (queue : List Job) (duration : Int)
    (frames : List Frame) (stream : AbstractStream) : List Frame :=
  if queue.any (fun job => job.callString == me.callString && job.id != me.id) then []
  else create_frames_body duration frames stream

/-- The `while frame_start > earliest_allowable_start` loop of
`backfill_tasks` (utils.py lines 288-292): step backward by `duration` while
above `floor`. -/
def backStarts (start floor duration : Int) : List Int :=
  if h : 0 < duration ∧ floor < start then
    start :: backStarts (start - duration) floor duration
  else []
termination_by (start - floor).toNat
decreasing_by
  have h1 := h.1
  have h2 := h.2
  omega

/-- `backfill_tasks` (utils.py lines 246-294).  Fallible: `Except.error`
models an uncaught Python exception.  The source wraps
`get_earliest_start_time` in `try/except ObjectDoesNotExist`, but the
aggregate returns `None` instead of raising, so when no frames exist the
subsequent `earliest - duration` raises a `TypeError`, which is modelled by
the error value. -/
def backfill_tasks (duration : Int) (frames : List Frame)
    (stream : AbstractStream) : Except String (List Frame) :=
  if stream.is_stream_empty then Except.ok []
  else
    match stream.get_earliest_stream_time with
    | none =>
      -- `stream.get_earliest_stream_time() - duration` with a None operand
      Except.error ("TypeError: unsupported operand for -: NoneType and timedelta")
    | some est =>
      let earliest_allowable_start := est - duration
      -- the source checks `if earliest_allowable_start is None` here, which
      -- can never hold once the subtraction has succeeded
      match get_earliest_start_time frames with
      | none =>
        -- `frame_start = earliest - duration` with `earliest = None`
        Except.error ("TypeError: unsupported operand for -: NoneType and timedelta")
      | some earliest =>
        Except.ok ((backStarts (earliest - duration) earliest_allowable_start duration).map mkFrame)

/-- A Python value stored under `name` in a task definition dict: either a
string or some non-string value (the code only ever asks
`isinstance(name, basestring)`). -/
inductive PyVal where
  | str (s : String)
  | other
deriving DecidableEq, Repr

/-- `isinstance(value, basestring)`. -/
def PyVal.is_basestring : PyVal → Bool
  | .str _ => true
  | .other => false

/-- Python `\w` on a byte string with default flags: `[a-zA-Z0-9_]`. -/
def isWordChar (c : Char) : Bool :=
  c.isAlpha || c.isDigit || c == '_'

/-- `AnalysisTask.TASK_KEY_REGEX.match(key)` as a Boolean (utils.py line 34):
`re.compile('\w+').match` anchors only at the start of the string, so it
succeeds exactly when the string is nonempty and its first character is a
word character. -/
def task_key_match (key : String) : Bool :=
  match key.data with
  | [] => false
  | c :: _ => isWordChar c

/-- One entry of the `ANALYSIS_TIME_FRAME_TASKS` configuration dict. -/
structure TaskDef where
  name : PyVal
  frame_class_path : String
  autostart : Bool
deriving DecidableEq, Repr

/-- `AnalysisTask` (utils.py lines 30-41): the fields set by `__init__`. -/
structure AnalysisTask where
  key : String
  name : PyVal
  frame_class_path : String
  autostart : Bool
deriving DecidableEq, Repr

/-- `AnalysisTask.__init__(key, taskdef)` (utils.py lines 37-41). -/
def AnalysisTask.ofDef (key : String) (td : TaskDef) : AnalysisTask :=
  { key := key, name := td.name, frame_class_path := td.frame_class_path
    autostart := td.autostart }

/-- `AnalysisTask.validate` (utils.py lines 43-51).  `Except.error` carries
the `ImproperlyConfigured` message.  The key check names the key; the name
check interpolates the name value (elided here). -/
def AnalysisTask.validate (t : AnalysisTask) : Except String Unit :=
  if !(task_key_match t.key) then
    Except.error ("Key " ++ t.key ++ " in ANALYSIS_TIME_FRAME_TASKS is not word-like.")
  else if !(t.name.is_basestring) then
    Except.error ("Name in ANALYSIS_TIME_FRAME_TASKS is not a string")
  else Except.ok ()

/-- The registry `AnalysisTask._tasks_config`, a dict in insertion order. -/
abbrev Registry := List (String × AnalysisTask)

/-- The `for key in settings.TIME_FRAME_TASKS` loop of
`AnalysisTask.initialize` (utils.py lines 149-155): construct, validate and
insert each task in turn.  A validation failure propagates as an exception,
leaving the registry as mutated so far; `autostart` scheduling touches only
the external scheduler, not the registry.  Returns the final registry and
the raised exception message, if any. -/
def initialize_go (reg : Registry) :
    List (String × TaskDef) → Registry × Option String
  | [] => (reg, none)
  | (key, td) :: rest =>
    match (AnalysisTask.ofDef key td).validate with
    | Except.error e => (reg, some e)
    | Except.ok _ => initialize_go (reg ++ [(key, AnalysisTask.ofDef key td)]) rest

/-- `AnalysisTask.initialize` (utils.py lines 141-155): raises when the
registry is already non-empty (`if len(cls._tasks_config)`), otherwise fills
the registry from the configuration. -/
def initialize_tasks (reg : Registry) (cfg : List (String × TaskDef)) :
    Registry × Option String :=
  if reg.length ≠ 0 then (reg, some ("AnalysisTasks already initialized"))
  else initialize_go reg cfg

/-- What `get_stream_cutoff_times` reads from one registered task: the frame
class's `STREAM_CLASS` (stream classes identified by a number) and the stored
rows of that frame class, from which `get_stream_memory_cutoff` is computed. -/
structure TaskState where
  stream_class : Nat
  frames : List Frame
deriving DecidableEq, Repr

/-- The dict `stream_class_memory_cutoffs`, in insertion order. -/
abbrev CutoffMap := List (Nat × Option Int)

/-- Python dict assignment `m[k] = v`: replace the value when the key is
present, otherwise append the new binding. -/
def dict_set (m : CutoffMap) (k : Nat) (v : Option Int) : CutoffMap :=
  if (List.lookup k m).isSome then
    m.map (fun p => if p.1 == k then (k, v) else p)
  else m ++ [(k, v)]

/-- `if stream_class not in stream_class_memory_cutoffs:
stream_class_memory_cutoffs[stream_class] = timezone.now()`
(utils.py lines 343-344). -/
def ensureEntry (now : Int) (m : CutoffMap) (t : TaskState) : CutoffMap :=
  if (List.lookup t.stream_class m).isNone then
    dict_set m t.stream_class (some now)
  else m

/-- The combination on lines 348-351 of utils.py: `None` when this task's
cutoff or the current entry is `None`, otherwise the minimum of the two. -/
def newCutoffVal : Option Int → Option Int → Option Int
  | none, _ => none
  | _, none => none
  | some c, some v => some (min c v)

/-- The body of the `for task in tasks` loop of `get_stream_cutoff_times`
(utils.py lines 339-351): seed an absent stream class with `timezone.now()`,
then combine the task's `get_stream_memory_cutoff` with the current entry
(present after seeding, so the `getD` default is never taken). -/
def updateCutoff (now : Int) (m : CutoffMap) (t : TaskState) : CutoffMap :=
  dict_set (ensureEntry now m t) t.stream_class
    (newCutoffVal (get_stream_memory_cutoff t.frames)
      ((List.lookup t.stream_class (ensureEntry now m t)).getD (some now)))

/-- `get_stream_cutoff_times` (utils.py lines 327-353). -/
def get_stream_cutoff_times (now : Int) (tasks : List TaskState) : CutoffMap :=
  tasks.foldl (updateCutoff now) []

/-- `cleanup` (utils.py lines 356-374): iterates the cutoff map and invokes
`stream.delete_before(cutoff_time)` for every entry.  When the cutoff is
`None` a skip message is logged, but the loop body falls through — there is
no `continue` — so `delete_before` is still invoked with cutoff `None`.
The result is the list of `delete_before` invocations (stream class, cutoff
argument), in iteration order. -/
def cleanup (now : Int) (tasks : List TaskState) : List (Nat × Option Int) :=
  (get_stream_cutoff_times now tasks).foldl
    (fun delete_before_calls entry => delete_before_calls ++ [entry]) []


/-!
## Theorems
-/

theorem aggMin_ne_none (x : Int) (xs : List Int) : aggMin (x :: xs) ≠ none := by
  simp only [aggMin]
  cases aggMin xs <;> simp

theorem aggMax_ne_none (x : Int) (xs : List Int) : aggMax (x :: xs) ≠ none := by
  simp only [aggMax]
  cases aggMax xs <;> simp

theorem aggMin_mem {l : List Int} {m : Int} (h : aggMin l = some m) : m ∈ l := by
  induction l generalizing m with
  | nil => simp [aggMin] at h
  | cons x xs ih =>
    simp only [aggMin] at h
    cases hxs : aggMin xs with
    | none => rw [hxs] at h; simp at h; simp [h]
    | some m0 =>
      rw [hxs] at h
      simp at h
      rcases min_choice x m0 with hc | hc
      · rw [hc] at h; subst h; exact List.mem_cons_self x xs
      · rw [hc] at h; subst h; exact List.mem_cons_of_mem x (ih hxs)

theorem aggMin_le {l : List Int} {m : Int} (h : aggMin l = some m) :
    ∀ x ∈ l, m ≤ x := by
  induction l generalizing m with
  | nil => simp
  | cons y ys ih =>
    intro x hx
    simp only [aggMin] at h
    cases hys : aggMin ys with
    | none =>
      rw [hys] at h
      simp at h
      have hnil : ys = [] := by
        cases ys with
        | nil => rfl
        | cons a as => exact absurd hys (aggMin_ne_none a as)
      subst hnil
      simp at hx
      omega
    | some m0 =>
      rw [hys] at h
      simp at h
      rcases List.mem_cons.mp hx with hx | hx
      · subst hx; omega
      · have := ih hys x hx
        omega

theorem aggMin_isSome {l : List Int} (h : l ≠ []) : ∃ m, aggMin l = some m := by
  cases l with
  | nil => exact absurd rfl h
  | cons x xs =>
    simp only [aggMin]
    cases aggMin xs with
    | none => exact ⟨x, rfl⟩
    | some m => exact ⟨min x m, rfl⟩

theorem aggMax_mem {l : List Int} {m : Int} (h : aggMax l = some m) : m ∈ l := by
  induction l generalizing m with
  | nil => simp [aggMax] at h
  | cons x xs ih =>
    simp only [aggMax] at h
    cases hxs : aggMax xs with
    | none => rw [hxs] at h; simp at h; simp [h]
    | some m0 =>
      rw [hxs] at h
      simp at h
      rcases max_choice x m0 with hc | hc
      · rw [hc] at h; subst h; exact List.mem_cons_self x xs
      · rw [hc] at h; subst h; exact List.mem_cons_of_mem x (ih hxs)

theorem aggMax_ge {l : List Int} {m : Int} (h : aggMax l = some m) :
    ∀ x ∈ l, x ≤ m := by
  induction l generalizing m with
  | nil => simp
  | cons y ys ih =>
    intro x hx
    simp only [aggMax] at h
    cases hys : aggMax ys with
    | none =>
      rw [hys] at h
      simp at h
      have hnil : ys = [] := by
        cases ys with
        | nil => rfl
        | cons a as => exact absurd hys (aggMax_ne_none a as)
      subst hnil
      simp at hx
      omega
    | some m0 =>
      rw [hys] at h
      simp at h
      rcases List.mem_cons.mp hx with hx | hx
      · subst hx; omega
      · have := ih hys x hx
        omega

theorem aggMax_isSome {l : List Int} (h : l ≠ []) : ∃ m, aggMax l = some m := by
  cases l with
  | nil => exact absurd rfl h
  | cons x xs =>
    simp only [aggMax]
    cases aggMax xs with
    | none => exact ⟨x, rfl⟩
    | some m => exact ⟨max x m, rfl⟩

/-- C10: `mark_started` writes only `analysis_time`, setting it to the
current wall-clock timestamp, and `mark_cleanup_started` writes only
`cleanup_time`; neither changes `start_time`, `calculated`, `missing_data`
or the other phase's timing field. -/
theorem mark_ops_write_only_their_field (f : Frame) (now : Int) :
    (f.mark_started now).analysis_time = some now ∧
    (f.mark_started now).start_time = f.start_time ∧
    (f.mark_started now).calculated = f.calculated ∧
    (f.mark_started now).missing_data = f.missing_data ∧
    (f.mark_started now).cleanup_time = f.cleanup_time ∧
    (f.mark_cleanup_started now).cleanup_time = some now ∧
    (f.mark_cleanup_started now).start_time = f.start_time ∧
    (f.mark_cleanup_started now).calculated = f.calculated ∧
    (f.mark_cleanup_started now).missing_data = f.missing_data ∧
    (f.mark_cleanup_started now).analysis_time = f.analysis_time :=
  ⟨rfl, rfl, rfl, rfl, rfl, rfl, rfl, rfl, rfl, rfl⟩

/-- C4: under the single-cutoff policy, `get_stream_memory_cutoff` returns
the minimum `start_time` over uncalculated frames when one exists, otherwise
the maximum `start_time` over calculated frames when one exists, otherwise
`None`. -/
theorem get_stream_memory_cutoff_spec (frames : List Frame) :
    ((∃ f ∈ frames, f.calculated = false) →
      ∃ m, get_stream_memory_cutoff frames = some m ∧
        (∃ f ∈ frames, f.calculated = false ∧ f.start_time = m) ∧
        (∀ f ∈ frames, f.calculated = false → m ≤ f.start_time)) ∧
    ((¬ ∃ f ∈ frames, f.calculated = false) →
      (∃ f ∈ frames, f.calculated = true) →
      ∃ m, get_stream_memory_cutoff frames = some m ∧
        (∃ f ∈ frames, f.calculated = true ∧ f.start_time = m) ∧
        (∀ f ∈ frames, f.calculated = true → f.start_time ≤ m)) ∧
    ((¬ ∃ f ∈ frames, f.calculated = false) →
      (¬ ∃ f ∈ frames, f.calculated = true) →
      get_stream_memory_cutoff frames = none) := by
  refine ⟨?_, ?_, ?_⟩
  · rintro ⟨f, hf, hcalc⟩
    have hmem : f.start_time ∈
        (frames.filter (fun g => g.calculated = false)).map Frame.start_time :=
      List.mem_map_of_mem _ (List.mem_filter.mpr ⟨hf, by simp [hcalc]⟩)
    have hne : (frames.filter (fun g => g.calculated = false)).map Frame.start_time ≠ [] := by
      intro hnil
      rw [hnil] at hmem
      simp at hmem
    obtain ⟨m, hm⟩ := aggMin_isSome hne
    refine ⟨m, ?_, ?_, ?_⟩
    · unfold get_stream_memory_cutoff
      rw [hm]
    · obtain ⟨g, hg, hgm⟩ := List.mem_map.mp (aggMin_mem hm)
      obtain ⟨hg1, hg2⟩ := List.mem_filter.mp hg
      exact ⟨g, hg1, by simpa using hg2, hgm⟩
    · intro g hg hgcalc
      exact aggMin_le hm _
        (List.mem_map_of_mem _ (List.mem_filter.mpr ⟨hg, by simp [hgcalc]⟩))
  · rintro hno ⟨f, hf, hcalc⟩
    have hfil : frames.filter (fun g => g.calculated = false) = [] := by
      rw [List.filter_eq_nil_iff]
      intro g hg hgc
      exact hno ⟨g, hg, by simpa using hgc⟩
    have hmem : f.start_time ∈
        (frames.filter (fun g => g.calculated = true)).map Frame.start_time :=
      List.mem_map_of_mem _ (List.mem_filter.mpr ⟨hf, by simp [hcalc]⟩)
    have hne : (frames.filter (fun g => g.calculated = true)).map Frame.start_time ≠ [] := by
      intro hnil
      rw [hnil] at hmem
      simp at hmem
    obtain ⟨m, hm⟩ := aggMax_isSome hne
    refine ⟨m, ?_, ?_, ?_⟩
    · unfold get_stream_memory_cutoff
      rw [hfil]
      simp only [List.map_nil]
      rw [show aggMin [] = none from rfl, hm]
    · obtain ⟨g, hg, hgm⟩ := List.mem_map.mp (aggMax_mem hm)
      obtain ⟨hg1, hg2⟩ := List.mem_filter.mp hg
      exact ⟨g, hg1, by simpa using hg2, hgm⟩
    · intro g hg hgcalc
      exact aggMax_ge hm _
        (List.mem_map_of_mem _ (List.mem_filter.mpr ⟨hg, by simp [hgcalc]⟩))
  · intro hno hnoc
    have hfil : frames.filter (fun g => g.calculated = false) = [] := by
      rw [List.filter_eq_nil_iff]
      intro g hg hgc
      exact hno ⟨g, hg, by simpa using hgc⟩
    have hfilc : frames.filter (fun g => g.calculated = true) = [] := by
      rw [List.filter_eq_nil_iff]
      intro g hg hgc
      exact hnoc ⟨g, hg, by simpa using hgc⟩
    unfold get_stream_memory_cutoff
    rw [hfil, hfilc]
    rfl

/-- Witness for C4: a store with one uncalculated frame at time 5 yields the
oldest-uncalculated branch; an empty store yields `None`. -/
theorem get_stream_memory_cutoff_spec_witness :
    (∃ m, get_stream_memory_cutoff [mkFrame 5] = some m ∧
      (∃ f ∈ [mkFrame 5], f.calculated = false ∧ f.start_time = m) ∧
      (∀ f ∈ [mkFrame 5], f.calculated = false → m ≤ f.start_time)) ∧
    get_stream_memory_cutoff [] = none :=
  ⟨(get_stream_memory_cutoff_spec [mkFrame 5]).1 ⟨mkFrame 5, by simp, rfl⟩,
   (get_stream_memory_cutoff_spec []).2.2 (by simp) (by simp)⟩

theorem frameStarts_cons {s c d : Int} (hd : 0 < d) (hs : s < c) :
    frameStarts s c d = s :: frameStarts (s + d) c d := by
  rw [frameStarts, dif_pos ⟨hd, hs⟩]

theorem frameStarts_nil {s c d : Int} (hs : ¬ s < c) : frameStarts s c d = [] := by
  rw [frameStarts, dif_neg (fun hc => hs hc.2)]

theorem frameStarts_ge (s c d : Int) : 0 < d → ∀ x ∈ frameStarts s c d, s ≤ x := by
  induction s, c, d using frameStarts.induct with
  | case1 s c d h ih =>
    intro hd x hx
    rw [frameStarts, dif_pos h] at hx
    rcases List.mem_cons.mp hx with hx | hx
    · omega
    · have := ih hd x hx
      omega
  | case2 s c d h =>
    intro hd x hx
    rw [frameStarts, dif_neg h] at hx
    cases hx

/-- Every start emitted by the forward loop is below the ceiling: a frame is
only created when the stream already covers its whole window. -/
theorem frameStarts_lt (s c d : Int) : ∀ x ∈ frameStarts s c d, x < c := by
  induction s, c, d using frameStarts.induct with
  | case1 s c d h ih =>
    intro x hx
    rw [frameStarts, dif_pos h] at hx
    rcases List.mem_cons.mp hx with hx | hx
    · omega
    · exact ih x hx
  | case2 s c d h =>
    intro x hx
    rw [frameStarts, dif_neg h] at hx
    cases hx

/-- A nonempty forward run has a greatest emitted start `m`, and the loop
stopped because `m + d` reached the ceiling. -/
theorem frameStarts_last (s c d : Int) : 0 < d → frameStarts s c d ≠ [] →
    ∃ m ∈ frameStarts s c d, (∀ x ∈ frameStarts s c d, x ≤ m) ∧ c ≤ m + d := by
  induction s, c, d using frameStarts.induct with
  | case1 s c d h ih =>
    intro hd _
    by_cases hrec : frameStarts (s + d) c d = []
    · refine ⟨s, ?_, ?_, ?_⟩
      · rw [frameStarts, dif_pos h]
        exact List.mem_cons_self s _
      · intro x hx
        rw [frameStarts, dif_pos h, hrec] at hx
        simp at hx
        omega
      · have : ¬ s + d < c := by
          intro hlt
          rw [frameStarts_cons hd hlt] at hrec
          simp at hrec
        omega
    · obtain ⟨m, hmem, hmax, hceil⟩ := ih hd hrec
      refine ⟨m, ?_, ?_, hceil⟩
      · rw [frameStarts, dif_pos h]
        exact List.mem_cons_of_mem s hmem
      · intro x hx
        rw [frameStarts, dif_pos h] at hx
        rcases List.mem_cons.mp hx with hx | hx
        · have hsm : s + d ≤ m := frameStarts_ge (s + d) c d hd m hmem
          omega
        · exact hmax x hx
  | case2 s c d h =>
    intro hd hne
    rw [frameStarts, dif_neg h] at hne
    exact absurd rfl hne

/-- C2 counterexample: with stream items at 00:00:30 and 00:05:10 (seconds
30 and 310), a 60-second duration and no existing frames, a single
`create_frames` run creates five frames — at 00:00:00, 00:01:00, 00:02:00,
00:03:00 and 00:04:00 — because 00:04:00 is still below the ceiling
00:04:10.  The claim of exactly four frames with none at 00:04:00 is
therefore false. -/
theorem create_frames_first_run_counterexample :
    (create_frames ⟨0, ("create_frames(taskA)")⟩ [] 60 []
        ⟨false, some 30, some 310⟩).map Frame.start_time = [0, 60, 120, 180, 240] ∧
    ¬ ((create_frames ⟨0, ("create_frames(taskA)")⟩ [] 60 []
          ⟨false, some 30, some 310⟩).length = 4 ∧
       (240 : Int) ∉ (create_frames ⟨0, ("create_frames(taskA)")⟩ [] 60 []
          ⟨false, some 30, some 310⟩).map Frame.start_time) := by
  have hrun : (create_frames ⟨0, ("create_frames(taskA)")⟩ [] 60 []
      ⟨false, some 30, some 310⟩).map Frame.start_time = [0, 60, 120, 180, 240] := by
    simp [create_frames, create_frames_body, get_latest_end_time, aggMax,
      frameStarts, mkFrame]
  refine ⟨hrun, ?_⟩
  rintro ⟨hlen, hmem⟩
  rw [hrun] at hmem
  simp at hmem

/-- C2 amended: the scenario's single forward run creates exactly five
frames, with start times 00:00:00, 00:01:00, 00:02:00, 00:03:00 and
00:04:00, in that order. -/
theorem create_frames_first_run_amended :
    (create_frames ⟨0, ("create_frames(taskA)")⟩ [] 60 []
        ⟨false, some 30, some 310⟩).map Frame.start_time = [0, 60, 120, 180, 240] := by
  simp [create_frames, create_frames_body, get_latest_end_time, aggMax,
    frameStarts, mkFrame]

/-- C3: with a non-empty stream and no frames of the task's type,
`backfill_tasks` does not return normally: `get_earliest_start_time` yields
`None` (the `ObjectDoesNotExist` handler is dead code, since an aggregate
query does not raise), and the subtraction `earliest - duration` raises a
`TypeError`. -/
theorem backfill_tasks_no_frames_raises :
    backfill_tasks 60 [] ⟨false, some 100, some 200⟩ =
      Except.error ("TypeError: unsupported operand for -: NoneType and timedelta") := by
  rfl

/-- C1: with one registered task over stream class 7 whose frame type has no
frames, the computed cutoff is `None`, yet `cleanup` still invokes
`delete_before` for that stream with the `None` cutoff — the
"Skipped cleaning" branch logs but does not skip. -/
theorem cleanup_invokes_delete_on_none_cutoff :
    cleanup 1000 [⟨7, []⟩] = [(7, none)] := by
  rfl

/-- C6: if the scanned job list contains another job with the same call
string (same generation entry point and task key) and a different id, the
current `create_frames` run returns immediately with no frames created and
no store writes. -/
theorem create_frames_duplicate_guard (me : Job) (queue : List Job)
    (duration : Int) (frames : List Frame) (stream : AbstractStream)
    (h : ∃ job ∈ queue, job.callString = me.callString ∧ job.id ≠ me.id) :
    create_frames me queue duration frames stream = [] := by
  unfold create_frames
  obtain ⟨j, hj, hcall, hid⟩ := h
  have hany : queue.any
      (fun job => job.callString == me.callString && job.id != me.id) = true :=
    List.any_eq_true.mpr ⟨j, hj, by simp [hcall, hid]⟩
  rw [hany]
  simp

/-- Witness for C6: a queued duplicate with id 1 makes the run with id 2
return zero frames. -/
theorem create_frames_duplicate_guard_witness :
    (∃ job ∈ [Job.mk 1 ("create_frames(taskA)")],
      job.callString = ("create_frames(taskA)") ∧ job.id ≠ 2) ∧
    create_frames ⟨2, ("create_frames(taskA)")⟩ [⟨1, ("create_frames(taskA)")⟩]
      60 [] ⟨false, some 30, some 310⟩ = [] :=
  ⟨⟨⟨1, ("create_frames(taskA)")⟩, by simp, rfl, by decide⟩,
   create_frames_duplicate_guard _ _ _ _ _
     ⟨⟨1, ("create_frames(taskA)")⟩, by simp, rfl, by decide⟩⟩

/-- A generation run that creates at least one frame took the main path:
the stream reported a latest time `L`, and the created frames are the loop's
output below the ceiling `L - d` from some anchor `la₀`. -/
theorem create_frames_body_shape (d : Int) (frames : List Frame)
    (stream : AbstractStream)
    (hne : create_frames_body d frames stream ≠ []) :
    ∃ L la₀, stream.get_latest_stream_time = some L ∧
      create_frames_body d frames stream = (frameStarts la₀ (L - d) d).map mkFrame := by
  unfold create_frames_body at hne ⊢
  cases hemp : stream.is_stream_empty with
  | true => simp [hemp] at hne
  | false =>
    simp only [hemp, Bool.false_eq_true, if_false] at hne ⊢
    cases hgle : get_latest_end_time frames d with
    | some la =>
      simp only [hgle] at hne ⊢
      cases hlat : stream.get_latest_stream_time with
      | none => simp [hlat] at hne
      | some L => exact ⟨L, la, rfl, by simp [hlat]⟩
    | none =>
      simp only [hgle] at hne ⊢
      cases hear : stream.get_earliest_stream_time with
      | none => simp [hear] at hne
      | some e =>
        simp only [hear] at hne ⊢
        cases hlat : stream.get_latest_stream_time with
        | none => simp [hlat] at hne
        | some L => exact ⟨L, e - e % 60, rfl, by simp [hlat]⟩

/-- After appending a nonempty batch of generated frames, the next run's
cursor (`max start + d`) has reached the ceiling, so the loop emits nothing. -/
theorem create_frames_body_after (d : Int) (hd : 0 < d)
    (frames new1 : List Frame) (stream : AbstractStream) (L la₀ : Int)
    (hlat : stream.get_latest_stream_time = some L)
    (hnew : new1 = (frameStarts la₀ (L - d) d).map mkFrame)
    (hne : new1 ≠ []) :
    create_frames_body d (frames ++ new1) stream = [] := by
  have hfs_ne : frameStarts la₀ (L - d) d ≠ [] := by
    intro h0
    apply hne
    rw [hnew, h0]
    rfl
  obtain ⟨m, hm_mem, _hmax, hceil⟩ := frameStarts_last la₀ (L - d) d hd hfs_ne
  have hm_in : m ∈ (frames ++ new1).map Frame.start_time := by
    rw [List.map_append]
    apply List.mem_append_right
    rw [hnew, List.map_map]
    exact List.mem_map.mpr ⟨m, hm_mem, rfl⟩
  have hmap_ne : (frames ++ new1).map Frame.start_time ≠ [] := by
    intro h0
    rw [h0] at hm_in
    cases hm_in
  obtain ⟨M, hM⟩ := aggMax_isSome hmap_ne
  have hmM : m ≤ M := aggMax_ge hM _ hm_in
  have hgle : get_latest_end_time (frames ++ new1) d = some (M + d) := by
    unfold get_latest_end_time
    rw [hM]
  unfold create_frames_body
  cases hemp : stream.is_stream_empty with
  | true => simp [hemp]
  | false =>
    simp only [hemp, Bool.false_eq_true, if_false, hgle, hlat]
    rw [frameStarts_nil (by omega)]
    rfl

/-- C7: running `create_frames` twice in immediate succession — with no new
stream data between the runs, the first run's created frames persisted, and
neither run skipped by the duplicate guard — creates zero frames the second
time. -/
theorem create_frames_idempotent (me1 me2 : Job) (q1 q2 : List Job)
    (d : Int) (frames : List Frame) (stream : AbstractStream)
    (hd : 0 < d)
    (h1 : q1.any (fun job => job.callString == me1.callString && job.id != me1.id) = false)
    (h2 : q2.any (fun job => job.callString == me2.callString && job.id != me2.id) = false) :
    create_frames me2 q2 d (frames ++ create_frames me1 q1 d frames stream) stream = [] := by
  have hrun1 : create_frames me1 q1 d frames stream = create_frames_body d frames stream := by
    unfold create_frames
    rw [h1]
    simp
  have hrun2 : ∀ fs, create_frames me2 q2 d fs stream = create_frames_body d fs stream := by
    intro fs
    unfold create_frames
    rw [h2]
    simp
  rw [hrun1, hrun2]
  by_cases hne : create_frames_body d frames stream = []
  · rw [hne, List.append_nil]
    exact hne
  · obtain ⟨L, la₀, hlat, hshape⟩ := create_frames_body_shape d frames stream hne
    exact create_frames_body_after d hd frames _ stream L la₀ hlat hshape hne

/-- Witness for C7: in the C2 scenario, an immediate second run on the
persisted result of the first creates zero frames. -/
theorem create_frames_idempotent_witness :
    (0 : Int) < 60 ∧
    create_frames ⟨1, ("create_frames(taskA)")⟩ [] 60
      ([] ++ create_frames ⟨0, ("create_frames(taskA)")⟩ [] 60 []
        ⟨false, some 30, some 310⟩)
      ⟨false, some 30, some 310⟩ = [] :=
  ⟨by decide,
   create_frames_idempotent ⟨0, ("create_frames(taskA)")⟩ ⟨1, ("create_frames(taskA)")⟩
     [] [] 60 [] ⟨false, some 30, some 310⟩ (by decide) rfl rfl⟩

/-- C8 counterexample: a key that is not made of word characters only
(`a!` — the regex is unanchored at the end) together with an empty name
passes validation, and the frame descriptor is never examined. -/
theorem validate_counterexample :
    (AnalysisTask.ofDef ("a!") ⟨PyVal.str "", "no.such.module.Frame", false⟩).validate
      = Except.ok () ∧
    ("a!").data.all isWordChar = false ∧
    PyVal.str "" = PyVal.str "" := by
  refine ⟨rfl, ?_, rfl⟩
  decide

/-- C8 amended: validation succeeds exactly when the key matches `\w+` at
its start (nonempty with a word-character first character — the pattern is
not anchored at the end) and the name is a string; an empty name is
accepted, and the frame descriptor and its duration are not checked.  A key
violation raises `ImproperlyConfigured` naming the key. -/
theorem validate_amended (key : String) (name : PyVal) (path : String)
    (auto : Bool) :
    (AnalysisTask.ofDef key ⟨name, path, auto⟩).validate = Except.ok () ↔
      (task_key_match key = true ∧ name.is_basestring = true) := by
  unfold AnalysisTask.ofDef AnalysisTask.validate
  constructor
  · intro h
    by_cases h1 : task_key_match key
    · by_cases h2 : name.is_basestring
      · exact ⟨h1, h2⟩
      · simp [h1, h2] at h
    · simp [h1] at h
  · rintro ⟨h1, h2⟩
    simp [h1, h2]

/-- Witness for C8 (amended): a word-character key with a string name
validates successfully. -/
theorem validate_amended_witness :
    (AnalysisTask.ofDef ("thermometer")
      ⟨PyVal.str "Thermometer", "app.models.TimeFrame", false⟩).validate =
      Except.ok () :=
  (validate_amended ("thermometer") (PyVal.str "Thermometer")
    ("app.models.TimeFrame") false).mpr ⟨rfl, rfl⟩

/-- C9 counterexample: with an empty configuration, the first
initialization succeeds and leaves the registry empty, so a second call
also succeeds instead of failing with the already-initialized error. -/
theorem initialize_twice_counterexample :
    (initialize_tasks [] []).2 = none ∧
    (initialize_tasks (initialize_tasks [] []).1 []).2 = none ∧
    (initialize_tasks (initialize_tasks [] []).1 []).2 ≠
      some ("AnalysisTasks already initialized") :=
  ⟨rfl, rfl, by decide⟩

theorem initialize_go_length (cfg : List (String × TaskDef)) :
    ∀ reg : Registry, reg.length ≤ (initialize_go reg cfg).1.length := by
  induction cfg with
  | nil => intro reg; exact le_refl _
  | cons e rest ih =>
    intro reg
    obtain ⟨key, td⟩ := e
    unfold initialize_go
    cases h : (AnalysisTask.ofDef key td).validate with
    | error msg => simp
    | ok u =>
      exact le_trans (by simp) (ih (reg ++ [(key, AnalysisTask.ofDef key td)]))

/-- C9 amended: for every configuration with at least one entry, a second
call to the initialization entry point after a successful first call fails
with the already-initialized error and leaves the registry unchanged.
(With an empty configuration the length guard does not trigger and the
second call succeeds.) -/
theorem initialize_twice_amended (cfg cfg2 : List (String × TaskDef))
    (reg1 : Registry) (hne : cfg ≠ [])
    (hfirst : initialize_tasks [] cfg = (reg1, none)) :
    initialize_tasks reg1 cfg2 = (reg1, some ("AnalysisTasks already initialized")) := by
  have hfirst_go : initialize_go [] cfg = (reg1, none) := by
    unfold initialize_tasks at hfirst
    simpa using hfirst
  have hlen : 1 ≤ reg1.length := by
    cases cfg with
    | nil => exact absurd rfl hne
    | cons e rest =>
      obtain ⟨key, td⟩ := e
      unfold initialize_go at hfirst_go
      cases h : (AnalysisTask.ofDef key td).validate with
      | error msg =>
        rw [h] at hfirst_go
        simp at hfirst_go
      | ok u =>
        rw [h] at hfirst_go
        simp only [List.nil_append] at hfirst_go
        have hmono := initialize_go_length rest [(key, AnalysisTask.ofDef key td)]
        rw [hfirst_go] at hmono
        simpa using hmono
  unfold initialize_tasks
  rw [if_pos (by omega)]

/-- Witness for C9: a one-entry configuration; the second call fails and
returns the registry built by the first. -/
theorem initialize_twice_amended_witness :
    ([("a", TaskDef.mk (PyVal.str "Thermometer") "app.models.TimeFrame" false)] ≠
      ([] : List (String × TaskDef))) ∧
    initialize_tasks
        (initialize_tasks []
          [("a", TaskDef.mk (PyVal.str "Thermometer") "app.models.TimeFrame" false)]).1
        [] =
      ((initialize_tasks []
          [("a", TaskDef.mk (PyVal.str "Thermometer") "app.models.TimeFrame" false)]).1,
        some ("AnalysisTasks already initialized")) :=
  ⟨by simp,
   initialize_twice_amended
     [("a", TaskDef.mk (PyVal.str "Thermometer") "app.models.TimeFrame" false)] [] _
     (by simp) rfl⟩

theorem lookup_cons_eq (k : Nat) (v : Option Int) (rest : CutoffMap) :
    List.lookup k ((k, v) :: rest) = some v := by
  simp [List.lookup]

theorem lookup_cons_ne {k k0 : Nat} (v0 : Option Int) (rest : CutoffMap)
    (h : k ≠ k0) :
    List.lookup k ((k0, v0) :: rest) = List.lookup k rest := by
  simp [List.lookup, beq_eq_false_iff_ne.mpr h]

theorem lookup_map_replace (m : CutoffMap) (k : Nat) (v : Option Int)
    (hp : (List.lookup k m).isSome = true) :
    List.lookup k (m.map (fun p => if p.1 == k then (k, v) else p)) = some v := by
  induction m with
  | nil => simp [List.lookup] at hp
  | cons p rest ih =>
    obtain ⟨k0, v0⟩ := p
    by_cases hk : k = k0
    · subst hk
      rw [List.map_cons]
      have hf : (if ((k, v0).1 == k) = true then (k, v) else (k, v0)) = (k, v) := by
        simp
      rw [hf, lookup_cons_eq]
    · rw [lookup_cons_ne v0 rest hk] at hp
      rw [List.map_cons]
      have hf : (if ((k0, v0).1 == k) = true then (k, v) else (k0, v0)) = (k0, v0) := by
        simp [beq_eq_false_iff_ne.mpr (Ne.symm hk)]
      rw [hf, lookup_cons_ne v0 _ hk]
      exact ih hp

theorem lookup_append_single (m : CutoffMap) (k : Nat) (v : Option Int)
    (hp : List.lookup k m = none) :
    List.lookup k (m ++ [(k, v)]) = some v := by
  induction m with
  | nil => simp [List.lookup]
  | cons p rest ih =>
    obtain ⟨k0, v0⟩ := p
    by_cases hk : k = k0
    · subst hk
      rw [lookup_cons_eq] at hp
      cases hp
    · rw [lookup_cons_ne v0 rest hk] at hp
      rw [List.cons_append, lookup_cons_ne v0 _ hk]
      exact ih hp

theorem lookup_dict_set_self (m : CutoffMap) (k : Nat) (v : Option Int) :
    List.lookup k (dict_set m k v) = some v := by
  unfold dict_set
  by_cases hp : (List.lookup k m).isSome = true
  · rw [if_pos hp]
    exact lookup_map_replace m k v hp
  · rw [if_neg hp]
    refine lookup_append_single m k v ?_
    cases h : List.lookup k m
    · rfl
    · rw [h] at hp
      simp at hp

theorem lookup_map_replace_other (m : CutoffMap) {k k2 : Nat} (v : Option Int)
    (h : k2 ≠ k) :
    List.lookup k2 (m.map (fun p => if p.1 == k then (k, v) else p)) =
      List.lookup k2 m := by
  induction m with
  | nil => rfl
  | cons p rest ih =>
    obtain ⟨k0, v0⟩ := p
    rw [List.map_cons]
    by_cases hk : k0 = k
    · subst hk
      have hf : (if ((k0, v0).1 == k0) = true then (k0, v) else (k0, v0)) = (k0, v) := by
        simp
      rw [hf, lookup_cons_ne v _ h, lookup_cons_ne v0 rest h]
      exact ih
    · have hf : (if ((k0, v0).1 == k) = true then (k, v) else (k0, v0)) = (k0, v0) := by
        simp [beq_eq_false_iff_ne.mpr hk]
      rw [hf]
      by_cases hk2 : k2 = k0
      · subst hk2
        rw [lookup_cons_eq, lookup_cons_eq]
      · rw [lookup_cons_ne v0 _ hk2, lookup_cons_ne v0 rest hk2]
        exact ih

theorem lookup_append_single_other (m : CutoffMap) {k k2 : Nat}
    (v : Option Int) (h : k2 ≠ k) :
    List.lookup k2 (m ++ [(k, v)]) = List.lookup k2 m := by
  induction m with
  | nil =>
    simp only [List.nil_append]
    rw [lookup_cons_ne v [] h]
  | cons p rest ih =>
    obtain ⟨k0, v0⟩ := p
    by_cases hk2 : k2 = k0
    · subst hk2
      rw [List.cons_append, lookup_cons_eq, lookup_cons_eq]
    · rw [List.cons_append, lookup_cons_ne v0 _ hk2, lookup_cons_ne v0 rest hk2]
      exact ih

theorem lookup_dict_set_other (m : CutoffMap) {k k2 : Nat} (v : Option Int)
    (h : k2 ≠ k) :
    List.lookup k2 (dict_set m k v) = List.lookup k2 m := by
  unfold dict_set
  by_cases hp : (List.lookup k m).isSome = true
  · rw [if_pos hp]
    exact lookup_map_replace_other m v h
  · rw [if_neg hp]
    exact lookup_append_single_other m v h

theorem ensureEntry_other (now : Int) (m : CutoffMap) (t : TaskState) {k : Nat}
    (h : k ≠ t.stream_class) :
    List.lookup k (ensureEntry now m t) = List.lookup k m := by
  unfold ensureEntry
  by_cases hp : (List.lookup t.stream_class m).isNone = true
  · rw [if_pos hp]
    exact lookup_dict_set_other m _ h
  · rw [if_neg hp]

theorem ensureEntry_absent (now : Int) (m : CutoffMap) (t : TaskState)
    (h : List.lookup t.stream_class m = none) :
    List.lookup t.stream_class (ensureEntry now m t) = some (some now) := by
  unfold ensureEntry
  rw [if_pos (by rw [h]; rfl)]
  exact lookup_dict_set_self m _ _

theorem ensureEntry_present (now : Int) (m : CutoffMap) (t : TaskState)
    {cur : Option Int} (h : List.lookup t.stream_class m = some cur) :
    ensureEntry now m t = m := by
  unfold ensureEntry
  rw [if_neg (by rw [h]; simp)]

theorem newCutoffVal_none_right (g : Option Int) : newCutoffVal g none = none := by
  cases g <;> rfl

theorem newCutoffVal_none_left (v : Option Int) : newCutoffVal none v = none := by
  cases v <;> rfl

theorem lookup_updateCutoff_other (now : Int) (m : CutoffMap) (t : TaskState)
    {k : Nat} (h : k ≠ t.stream_class) :
    List.lookup k (updateCutoff now m t) = List.lookup k m := by
  unfold updateCutoff
  rw [lookup_dict_set_other _ _ h]
  exact ensureEntry_other now m t h

theorem lookup_updateCutoff_absent (now : Int) (m : CutoffMap) (t : TaskState)
    (h : List.lookup t.stream_class m = none) :
    List.lookup t.stream_class (updateCutoff now m t) =
      some (newCutoffVal (get_stream_memory_cutoff t.frames) (some now)) := by
  unfold updateCutoff
  rw [lookup_dict_set_self, ensureEntry_absent now m t h]
  rfl

theorem lookup_updateCutoff_present (now : Int) (m : CutoffMap) (t : TaskState)
    {cur : Option Int} (h : List.lookup t.stream_class m = some cur) :
    List.lookup t.stream_class (updateCutoff now m t) =
      some (newCutoffVal (get_stream_memory_cutoff t.frames) cur) := by
  unfold updateCutoff
  rw [ensureEntry_present now m t h, lookup_dict_set_self, h]
  rfl

/-- Once a stream class's entry is `None`, it stays `None` for the rest of
the loop: the `or` in the source keeps unknown cutoffs unknown. -/
theorem foldl_none_sticky (now : Int) (ts : List TaskState) :
    ∀ m sc, List.lookup sc m = some none →
      List.lookup sc (ts.foldl (updateCutoff now) m) = some none := by
  induction ts with
  | nil =>
    intro m sc h
    simpa using h
  | cons t ts ih =>
    intro m sc h
    rw [List.foldl_cons]
    apply ih
    by_cases hsc : sc = t.stream_class
    · subst hsc
      rw [lookup_updateCutoff_present now m t h, newCutoffVal_none_right]
    · rw [lookup_updateCutoff_other now m t hsc]
      exact h

/-- A present numeric entry can only shrink (or become `None`) as the loop
processes more tasks. -/
theorem foldl_decrease (now : Int) (ts : List TaskState) :
    ∀ m sc v, List.lookup sc m = some (some v) →
      List.lookup sc (ts.foldl (updateCutoff now) m) = some none ∨
      ∃ w, w ≤ v ∧ List.lookup sc (ts.foldl (updateCutoff now) m) = some (some w) := by
  induction ts with
  | nil =>
    intro m sc v h
    right
    exact ⟨v, le_refl v, by simpa using h⟩
  | cons t ts ih =>
    intro m sc v h
    rw [List.foldl_cons]
    by_cases hsc : sc = t.stream_class
    · subst hsc
      cases hg : get_stream_memory_cutoff t.frames with
      | none =>
        left
        apply foldl_none_sticky
        rw [lookup_updateCutoff_present now m t h, hg]
        rfl
      | some c =>
        have hstep : List.lookup t.stream_class (updateCutoff now m t) =
            some (some (min c v)) := by
          rw [lookup_updateCutoff_present now m t h, hg]
          rfl
        rcases ih (updateCutoff now m t) _ _ hstep with hl | ⟨w, hwv, hw⟩
        · exact Or.inl hl
        · exact Or.inr ⟨w, le_trans hwv (min_le_right c v), hw⟩
    · apply ih
      rw [lookup_updateCutoff_other now m t hsc]
      exact h

/-- The final entry for a stream class is bounded by the cutoff of every
task of that stream class that the loop processed. -/
theorem foldl_bound (now : Int) (ts : List TaskState) :
    ∀ m sc c, List.lookup sc (ts.foldl (updateCutoff now) m) = some (some c) →
      ∀ t ∈ ts, t.stream_class = sc →
        ∀ tc, get_stream_memory_cutoff t.frames = some tc → c ≤ tc := by
  induction ts with
  | nil =>
    intro m sc c _ t ht
    cases ht
  | cons t0 ts ih =>
    intro m sc c hc t ht hts tc htc
    rw [List.foldl_cons] at hc
    rcases List.mem_cons.mp ht with rfl | hmem
    · subst hts
      cases hcur : List.lookup t.stream_class m with
      | none =>
        have hstep : List.lookup t.stream_class (updateCutoff now m t) =
            some (some (min tc now)) := by
          rw [lookup_updateCutoff_absent now m t hcur, htc]
          rfl
        rcases foldl_decrease now ts _ _ _ hstep with hl | ⟨w, hwv, hw⟩
        · rw [hl] at hc
          simp at hc
        · rw [hw] at hc
          simp only [Option.some.injEq] at hc
          subst hc
          exact le_trans hwv (min_le_left tc now)
      | some cur =>
        cases cur with
        | none =>
          have hnone : List.lookup t.stream_class
              (ts.foldl (updateCutoff now) (updateCutoff now m t)) = some none := by
            apply foldl_none_sticky
            rw [lookup_updateCutoff_present now m t hcur, htc]
            rfl
          rw [hnone] at hc
          simp at hc
        | some v =>
          have hstep : List.lookup t.stream_class (updateCutoff now m t) =
              some (some (min tc v)) := by
            rw [lookup_updateCutoff_present now m t hcur, htc]
            rfl
          rcases foldl_decrease now ts _ _ _ hstep with hl | ⟨w, hwv, hw⟩
          · rw [hl] at hc
            simp at hc
          · rw [hw] at hc
            simp only [Option.some.injEq] at hc
            subst hc
            exact le_trans hwv (min_le_left tc v)
    · exact ih (updateCutoff now m t0) sc c hc t hmem hts tc htc

/-- If any processed task of a stream class has an unknown cutoff, the final
entry for that stream class is `None`. -/
theorem foldl_none_exists (now : Int) (ts : List TaskState) :
    ∀ m sc,
      (∃ t ∈ ts, t.stream_class = sc ∧ get_stream_memory_cutoff t.frames = none) →
      List.lookup sc (ts.foldl (updateCutoff now) m) = some none := by
  induction ts with
  | nil =>
    rintro m sc ⟨t, ht, _⟩
    cases ht
  | cons t0 ts ih =>
    rintro m sc ⟨t, ht, hts, htc⟩
    rw [List.foldl_cons]
    rcases List.mem_cons.mp ht with rfl | hmem
    · subst hts
      apply foldl_none_sticky
      cases hcur : List.lookup t.stream_class m with
      | none =>
        rw [lookup_updateCutoff_absent now m t hcur, htc, newCutoffVal_none_left]
      | some cur =>
        rw [lookup_updateCutoff_present now m t hcur, htc, newCutoffVal_none_left]
    · exact ih (updateCutoff now m t0) sc ⟨t, hmem, hts, htc⟩

/-- C5: the per-stream map of `get_stream_cutoff_times` assigns to each
stream class a cutoff that is less than or equal to every sharing task's own
`get_stream_memory_cutoff`, and assigns `None` whenever at least one sharing
task's cutoff is `None`. -/
theorem get_stream_cutoff_times_conservative (now : Int)
    (tasks : List TaskState) (sc : Nat) :
    (∀ c, List.lookup sc (get_stream_cutoff_times now tasks) = some (some c) →
      ∀ t ∈ tasks, t.stream_class = sc →
        ∀ tc, get_stream_memory_cutoff t.frames = some tc → c ≤ tc) ∧
    ((∃ t ∈ tasks, t.stream_class = sc ∧ get_stream_memory_cutoff t.frames = none) →
      List.lookup sc (get_stream_cutoff_times now tasks) = some none) := by
  constructor
  · intro c hc t ht hts tc htc
    exact foldl_bound now tasks [] sc c hc t ht hts tc htc
  · intro hex
    exact foldl_none_exists now tasks [] sc hex

/-- Witness for C5: two tasks share stream class 3 with cutoffs 10 and 20;
the shared entry is 10, which is at most the cutoff 20 of the second task.
A task over stream class 5 with no frames yields a `None` entry. -/
theorem get_stream_cutoff_times_conservative_witness :
    List.lookup 3 (get_stream_cutoff_times 1000
      [⟨3, [mkFrame 10]⟩, ⟨3, [mkFrame 20]⟩]) = some (some 10) ∧
    (10 : Int) ≤ 20 ∧
    List.lookup 5 (get_stream_cutoff_times 1000 [⟨5, ([] : List Frame)⟩]) = some none :=
  ⟨rfl,
   (get_stream_cutoff_times_conservative 1000
      [⟨3, [mkFrame 10]⟩, ⟨3, [mkFrame 20]⟩] 3).1 10 rfl
     ⟨3, [mkFrame 20]⟩ (by simp) rfl 20 rfl,
   (get_stream_cutoff_times_conservative 1000 [⟨5, ([] : List Frame)⟩] 5).2
     ⟨⟨5, ([] : List Frame)⟩, by simp, rfl, rfl⟩⟩

end StreamAnalysis

